import Mathlib

/-
Shallow embedding of `src/alternativepy.py`, a manager for multiple coexisting
CPython installations.  Pure string logic (catalog parsing, version checks,
alias naming) is translated directly; filesystem effects are modelled by an
explicit `FS` state (the download/artifact root and the links directory), and
external effects (network, archive extraction, the build toolchain, ln, and
interactive confirmations) are modelled by a `SysEnv` record carrying the
outcome each external step would produce.  Python exceptions are modelled by
`Except`; every stateful operation returns the state it leaves on disk even
when it raises, mirroring what a crashed script leaves behind.
-/

set_option autoImplicit false

/-- Exceptions the script can raise: network errors from `urllib`, download or
extraction failures, `FileNotFoundError` from `os` calls, and `IndexError`
from indexing an empty argument list. -/
inductive Err where
  | network
  | fetchFail
  | extractFail
  | fileNotFound
  | indexError
  deriving DecidableEq, Repr

/-- Decidable equality for `Except`, needed so that concrete runs of the
embedded operations can be checked by `decide`. -/
instance {ε α : Type} [DecidableEq ε] [DecidableEq α] : DecidableEq (Except ε α) :=
  fun x y =>
    match x, y with
    | Except.error a, Except.error b =>
      if h : a = b then Decidable.isTrue (congrArg Except.error h)
      else Decidable.isFalse (fun hc => h (Except.error.inj hc))
    | Except.error _, Except.ok _ => Decidable.isFalse (fun hc => Except.noConfusion hc)
    | Except.ok _, Except.error _ => Decidable.isFalse (fun hc => Except.noConfusion hc)
    | Except.ok a, Except.ok b =>
      if h : a = b then Decidable.isTrue (congrArg Except.ok h)
      else Decidable.isFalse (fun hc => h (Except.ok.inj hc))

/-- Embedding of the `int(value[:1])` probe used at lines 47-52 and 62-65 of
the source: it succeeds exactly when the string's first character is a digit
(an empty slice raises `ValueError`). -/
def firstIsDigit (s : String) : Bool :=
  match s.data with
  | [] => false
  | c :: _ => c.isDigit

/-- Embedding of Python's `value[:-1]`: drop the final character (used to
strip the trailing slash from each directory-listing entry, line 54). -/
def pyStripLast (s : String) : String :=
  String.mk (s.data.dropLast)

/-- The parsing loop of `get_valid_python_versions` (lines 44-54): walk the
entries, stop at the first whose first character is not a digit (`break`),
and collect each kept entry with its last character stripped. -/
def gvLoop : List String → List String
  | [] => []
  | e :: rest => if firstIsDigit e then pyStripLast e :: gvLoop rest else []

/-- Embedding of `get_valid_python_versions` (lines 29-55) applied to the
link texts scraped from the listing page: the first entry (the parent
directory link) is skipped, then the prefix scan `gvLoop` runs. -/
def get_valid_python_versions (listing : List String) : List String :=
  gvLoop (listing.drop 1)

/-- Embedding of `verify_python_version` (lines 57-68).  The network is the
`Option (List String)` argument: `none` means the listing fetch would raise
(network unreachable), `some listing` is the fetched page.  The cheap digit
check runs before the network is touched, so a non-digit-initial version
returns `false` even when the network is down. -/
def verify_python_version (net : Option (List String)) (version : String) : Except Err Bool :=
  if firstIsDigit version then
    match net with
    | none => Except.error Err.network
    | some listing => Except.ok (decide (version ∈ get_valid_python_versions listing))
  else Except.ok false

/-- Embedding of `execute_terminal_command` (lines 70-87).  The externally
determined outcome is the input: `none` models `FileNotFoundError` from
`Popen` (missing executable, caught and turned into `False`), `some code`
the process exit status.  The return value mirrors `not bool(process.poll())`. -/
def execute_terminal_command (outcome : Option Int) : Bool :=
  match outcome with
  | none => false
  | some code => !(code != 0)

/-- Fuel-indexed core of Python's `str.replace`: replace non-overlapping
occurrences of `pat` left to right.  The fuel is the input length, which
suffices because every step consumes at least one character. -/
def pyReplaceAux (pat rep : List Char) : Nat → List Char → List Char
  | 0, s => s
  | _ + 1, [] => []
  | fuel + 1, c :: rest =>
    if pat.isPrefixOf (c :: rest) && !pat.isEmpty then
      rep ++ pyReplaceAux pat rep fuel (List.drop pat.length (c :: rest))
    else
      c :: pyReplaceAux pat rep fuel rest

/-- Embedding of Python's `exe.replace(old, new)` (all occurrences,
left to right, non-overlapping). -/
def pyReplace (s pat rep : String) : String :=
  String.mk (pyReplaceAux pat.data rep.data s.data.length s.data)

/-- The alias-name computation shared by `create_symlinks` (lines 214-219)
and `delete_version` (lines 141-146): when the version identifier is longer
than three characters, every occurrence of its first three characters in the
executable name is replaced by the full identifier; the fixed namespace
prefix is then prepended. -/
def aliasName (version exe : String) : String :=
  if 3 < version.length then
    ("altpy-") ++ pyReplace exe (String.mk (version.data.take 3)) version
  else
    ("altpy-") ++ exe

/-- Embedding of `str.lower` as applied to the command-line arguments at
line 291 (ASCII case folding). -/
def pyLower (s : String) : String :=
  String.mk (s.data.map Char.toLower)

/-- C4: for every id whose first character is not a digit, verification
returns false with the network never consulted (it returns cleanly even when
the network is modelled as down); for ids passing the cheap check,
installability holds exactly when the parsed catalog listing contains the id. -/
theorem catalog_short_circuit (v : String) (listing : List String) :
    (verify_python_version none v = Except.ok false ↔ firstIsDigit v = false) ∧
    (firstIsDigit v = true →
      (verify_python_version (some listing) v = Except.ok true ↔
        v ∈ get_valid_python_versions listing)) := by
  constructor
  · unfold verify_python_version
    cases h : firstIsDigit v <;> simp [h]
  · intro h
    unfold verify_python_version
    simp [h]

/-- Witness for `catalog_short_circuit` at concrete inputs: a non-version id
is rejected with the network down, and a listed version is accepted. -/
theorem catalog_short_circuit_w :
    verify_python_version none ("not-a-version") = Except.ok false ∧
    verify_python_version (some [("parent"), ("3.9.1/")]) ("3.9.1") = Except.ok true :=
  ⟨(catalog_short_circuit ("not-a-version") []).1.mpr (by decide),
   ((catalog_short_circuit ("3.9.1") [("parent"), ("3.9.1/")]).2 (by decide)).mpr (by decide)⟩

/-- Helper for C5: the parse loop on a listing shaped as digit-initial
entries followed by a non-digit entry returns exactly the stripped prefix,
regardless of what follows the stopping entry. -/
theorem gvLoop_append (pre : List String) (bad : String) (rest : List String) :
    (∀ e ∈ pre, firstIsDigit e = true) → firstIsDigit bad = false →
    gvLoop (pre ++ bad :: rest) = pre.map pyStripLast := by
  induction pre with
  | nil => intro _ hbad; simp [gvLoop, hbad]
  | cons e es ih =>
    intro hpre hbad
    have he : firstIsDigit e = true := hpre e (List.mem_cons_self e es)
    simp only [List.cons_append, gvLoop, he, if_true, List.map_cons, List.append_eq]
    rw [ih (fun x hx => hpre x (List.mem_cons_of_mem e hx)) hbad]

/-- C5: the listing parse skips the first entry, then returns exactly the
consecutive digit-initial entries (with their trailing character stripped)
up to but excluding the first entry whose first character is not a digit;
entries after that stopping point are never included, whatever they are —
a prefix scan, not a filter. -/
theorem listing_prefix_scan (x bad : String) (pre rest : List String)
    (hpre : ∀ e ∈ pre, firstIsDigit e = true) (hbad : firstIsDigit bad = false) :
    get_valid_python_versions (x :: (pre ++ bad :: rest)) = pre.map pyStripLast := by
  unfold get_valid_python_versions
  rw [List.drop_succ_cons, List.drop_zero]
  exact gvLoop_append pre bad rest hpre hbad

/-- Witness for `listing_prefix_scan`: the first entry is skipped even though
it begins with a digit, and the digit-initial entry after the stop point is
excluded. -/
theorem listing_prefix_scan_w :
    get_valid_python_versions
        ([("1skip/"), ("3.8/"), ("3.9.1/"), ("index.html"), ("5.0/")]) =
      [("3.8"), ("3.9.1")] := by
  simpa using
    listing_prefix_scan ("1skip/") ("index.html") [("3.8/"), ("3.9.1/")] [("5.0/")]
      (by decide) (by decide)

/-- C9: the runner reports success exactly when the launched process exits
with status zero — any non-zero status, including negative signal-induced
ones, yields failure — and a missing executable is reported as failure
rather than raised. -/
theorem process_runner_success (r : Option Int) :
    (execute_terminal_command r = true ↔ r = some 0) ∧
    execute_terminal_command none = false := by
  refine ⟨?_, rfl⟩
  cases r with
  | none => simp [execute_terminal_command]
  | some c =>
    simp [execute_terminal_command]

/-- One entry of the artifact root (`DOWNLOAD_LOCATION`): a directory named
`name`, whose `bin` subdirectory — when present — holds the listed
executable names.  Extracted source trees `Python-<version>` have no `bin`
subdirectory (`bin := none`). -/
structure FsDir where
  name : String
  bin : Option (List String)
  deriving DecidableEq, Repr

/-- One symlink in the links directory (`LINKS_LOCATION`): its file name and
its target, recorded structurally as the version-owned binary
`DOWNLOAD_LOCATION/<tgtVersion>/bin/<tgtExe>` it points at. -/
structure FsLink where
  name : String
  tgtVersion : String
  tgtExe : String
  deriving DecidableEq, Repr

/-- The on-disk state the script manipulates: the contents of the artifact
root (in directory-listing order) and of the links directory. -/
structure FS where
  download : List FsDir
  links : List FsLink
  deriving DecidableEq, Repr

/-- Outcomes of all external collaborators for one run: the network (as in
`verify_python_version`), the interactive confirmations, and the result of
each shelled-out pipeline step.  `altinstallBin` is the set of executables a
successful `make altinstall` places into the install prefix;
`altinstallPartialBin` is whatever install root a failing `make altinstall`
leaves behind (`none` when the failing step created nothing).  `lnFails` are
alias names whose `ln -s` is made to fail. -/
structure SysEnv where
  net : Option (List String)
  confirmInstall : Bool
  confirmRemove : Bool
  confirmClean : Bool
  fetchOk : Bool
  extractOk : Bool
  configureOk : Bool
  nprocOk : Bool
  makeOk : Bool
  altinstallOk : Bool
  altinstallBin : List String
  altinstallPartialBin : Option (List String)
  lnFails : List String
  deriving DecidableEq, Repr

/-- Look up a directory of the artifact root by name (`os.path` probes). -/
def findDir (fs : FS) (n : String) : Option FsDir :=
  fs.download.find? (fun d => d.name == n)

/-- Embedding of `os.path.exists(os.path.join(DOWNLOAD_LOCATION, n))`. -/
def hasDir (fs : FS) (n : String) : Bool :=
  (findDir fs n).isSome

/-- Embedding of `shutil.rmtree` on a directory of the artifact root. -/
def removeDirFS (fs : FS) (n : String) : FS :=
  { fs with download := fs.download.filter (fun d => !(d.name == n)) }

/-- Record that directory `d` now exists in the artifact root (created by
extraction or by `make altinstall`). -/
def setDir (fs : FS) (d : FsDir) : FS :=
  { fs with download := fs.download.filter (fun x => !(x.name == d.name)) ++ [d] }

/-- The name of the transient extracted build tree, `Python-<version>`. -/
def buildDirName (version : String) : String :=
  ("Python-") ++ version

/-- Remove the first link with the given file name, or `none` when no such
file exists. -/
def eraseLink : List FsLink → String → Option (List FsLink)
  | [], _ => none
  | l :: ls, n => if l.name == n then some ls else (eraseLink ls n).map (fun ls' => l :: ls')

/-- Embedding of `os.remove(f"{LINKS_LOCATION}/{link}")` (line 153): removing
an absent file raises `FileNotFoundError`. -/
def osRemoveLink (n : String) (fs : FS) : Except Err Unit × FS :=
  match eraseLink fs.links n with
  | none => (Except.error Err.fileNotFound, fs)
  | some ls => (Except.ok (), { fs with links := ls })

/-- The symlink-removal loop of `delete_version` (lines 152-153): remove each
computed alias name in order, propagating the first exception. -/
def removeLinks : List String → FS → Except Err Unit × FS
  | [], fs => (Except.ok (), fs)
  | n :: ns, fs =>
    match osRemoveLink n fs with
    | (Except.error e, fs') => (Except.error e, fs')
    | (Except.ok _, fs') => removeLinks ns fs'

/-- Embedding of `delete_version` (lines 126-153): return silently when the
install directory is absent; otherwise list `bin` (raising when there is no
`bin` subdirectory), compute the alias names, delete the install tree, then
remove each alias symlink in order. -/
def delete_version (version : String) (fs : FS) : Except Err Unit × FS :=
  match findDir fs version with
  | none => (Except.ok (), fs)
  | some d =>
    match d.bin with
    | none => (Except.error Err.fileNotFound, fs)
    | some exes =>
      removeLinks (exes.map (aliasName version)) (removeDirFS fs version)

/-- Embedding of `download_python_version` (lines 103-124): a failing fetch
or extraction raises; on success the extracted tree `Python-<version>`
appears in the artifact root (the temporary archive, deleted right after
extraction, is not tracked). -/
def download_python_version (env : SysEnv) (version : String) (fs : FS) : Except Err Unit × FS :=
  if env.fetchOk then
    if env.extractOk then
      (Except.ok (), setDir fs { name := buildDirName version, bin := none })
    else (Except.error Err.extractFail, fs)
  else (Except.error Err.fetchFail, fs)

/-- Embedding of `build_python_version` (lines 155-199): delete any current
install, `os.chdir` into the build tree (raising when it is absent), then
run configure, `make` and `make altinstall`, returning `false` as soon as
one fails.  The `nproc` probe (whose failure only downgrades the `-j` flag
with a warning, `env.nprocOk`) has no effect on the filesystem.  On success
the build tree is deleted; a failing `make altinstall` leaves behind
whatever partial install root the external step created. -/
def build_python_version (env : SysEnv) (version : String) (fs : FS) : Except Err Bool × FS :=
  match delete_version version fs with
  | (Except.error e, fs') => (Except.error e, fs')
  | (Except.ok _, fs1) =>
    if hasDir fs1 (buildDirName version) then
      if env.configureOk then
        if env.makeOk then
          if env.altinstallOk then
            (Except.ok true,
              removeDirFS (setDir fs1 { name := version, bin := some env.altinstallBin })
                (buildDirName version))
          else
            match env.altinstallPartialBin with
            | some exes => (Except.ok false, setDir fs1 { name := version, bin := some exes })
            | none => (Except.ok false, fs1)
        else (Except.ok false, fs1)
      else (Except.ok false, fs1)
    else (Except.error Err.fileNotFound, fs1)

/-- The link record `create_symlinks` produces for one executable. -/
def mkAlias (version exe : String) : FsLink :=
  { name := aliasName version exe, tgtVersion := version, tgtExe := exe }

/-- The creation loop of `create_symlinks` (lines 213-223): for each
executable run `ln -s`; the command fails — and the whole publish returns
`false`, leaving already-created links in place — when the alias name is
already taken or its creation is made to fail. -/
def createLinksGo (env : SysEnv) (version : String) : List String → FS → Except Err Bool × FS
  | [], fs => (Except.ok true, fs)
  | exe :: exes, fs =>
    if fs.links.any (fun l => l.name == aliasName version exe)
        || decide (aliasName version exe ∈ env.lnFails) then
      (Except.ok false, fs)
    else
      createLinksGo env version exes { fs with links := fs.links ++ [mkAlias version exe] }

/-- Embedding of `create_symlinks` (lines 201-223): list the installed
version's `bin` directory (raising when it is absent) and create one
prefixed alias per executable. -/
def create_symlinks (env : SysEnv) (version : String) (fs : FS) : Except Err Bool × FS :=
  match findDir fs version with
  | none => (Except.error Err.fileNotFound, fs)
  | some d =>
    match d.bin with
    | none => (Except.error Err.fileNotFound, fs)
    | some exes => createLinksGo env version exes fs

/-- The tail of `install` after validation and the overwrite check
(lines 235-244): download and extract, build, delete the build tree when the
build reported failure (raising when it is already gone), then publish the
aliases, rolling the install back through `delete_version` when publishing
reported failure. -/
def installPipeline (env : SysEnv) (version : String) (fs : FS) : Except Err Bool × FS :=
  match download_python_version env version fs with
  | (Except.error e, fs') => (Except.error e, fs')
  | (Except.ok _, fs1) =>
    match build_python_version env version fs1 with
    | (Except.error e, fs2) => (Except.error e, fs2)
    | (Except.ok false, fs2) =>
      if hasDir fs2 (buildDirName version) then
        (Except.ok false, removeDirFS fs2 (buildDirName version))
      else (Except.error Err.fileNotFound, fs2)
    | (Except.ok true, fs2) =>
      match create_symlinks env version fs2 with
      | (Except.error e, fs3) => (Except.error e, fs3)
      | (Except.ok false, fs3) =>
        match delete_version version fs3 with
        | (Except.error e, fs4) => (Except.error e, fs4)
        | (Except.ok _, fs4) => (Except.ok false, fs4)
      | (Except.ok true, fs3) => (Except.ok true, fs3)

/-- Embedding of `install` (lines 225-244): validate through the catalog,
then — when an installation already exists — ask for confirmation, aborting
with no state change when it is declined and removing the old installation
first when it is granted; then run the pipeline. -/
def install (env : SysEnv) (version : String) (fs : FS) : Except Err Bool × FS :=
  match verify_python_version env.net version with
  | Except.error e => (Except.error e, fs)
  | Except.ok false => (Except.ok false, fs)
  | Except.ok true =>
    if hasDir fs version then
      if env.confirmInstall then
        match delete_version version fs with
        | (Except.error e, fs') => (Except.error e, fs')
        | (Except.ok _, fs1) => installPipeline env version fs1
      else (Except.ok false, fs)
    else installPipeline env version fs

/-- The removal loop of `clean_versions` (lines 255-256): delete each listed
version in order, propagating the first exception. -/
def deleteAll : List String → FS → Except Err Unit × FS
  | [], fs => (Except.ok (), fs)
  | v :: vs, fs =>
    match delete_version v fs with
    | (Except.error e, fs') => (Except.error e, fs')
    | (Except.ok _, fs') => deleteAll vs fs'

/-- Embedding of `clean_versions` (lines 246-256): list the artifact root
once, report nothing to do when it is empty, require one confirmation, then
delete each entry in turn. -/
def clean_versions (env : SysEnv) (fs : FS) : Except Err Unit × FS :=
  if (fs.download.map FsDir.name).isEmpty then (Except.ok (), fs)
  else if env.confirmClean then deleteAll (fs.download.map FsDir.name) fs
  else (Except.ok (), fs)

/-- The `install` command arm of `main` (lines 266-267): the orchestrator's
boolean result is discarded. -/
def runInstallCmd (env : SysEnv) (version : String) (fs : FS) : Except Err Unit × FS :=
  match install env version fs with
  | (Except.error e, fs') => (Except.error e, fs')
  | (Except.ok _, fs') => (Except.ok (), fs')

/-- Embedding of `main` (lines 265-283): string dispatch on the command name
and argument count; `remove` validates through the catalog, checks the local
install, asks for confirmation, then deletes; unmatched shapes print the
help text and change nothing.  Indexing an empty argument list raises. -/
def mainRun (env : SysEnv) (args : List String) (fs : FS) : Except Err Unit × FS :=
  match args with
  | [] => (Except.error Err.indexError, fs)
  | [cmd, v] =>
    if cmd == ("install") then runInstallCmd env v fs
    else if cmd == ("remove") then
      match verify_python_version env.net v with
      | Except.error e => (Except.error e, fs)
      | Except.ok false => (Except.ok (), fs)
      | Except.ok true =>
        if hasDir fs v then
          if env.confirmRemove then delete_version v fs
          else (Except.ok (), fs)
        else (Except.ok (), fs)
    else (Except.ok (), fs)
  | [cmd] =>
    if cmd == ("clean") then clean_versions env fs else (Except.ok (), fs)
  | _ => (Except.ok (), fs)

/-- Embedding of the `__main__` block (lines 285-292): with no user
arguments print the help text; otherwise fold every argument to lowercase
and dispatch.  `argv` is `sys.argv[1:]`. -/
def mainEntry (env : SysEnv) (argv : List String) (fs : FS) : Except Err Unit × FS :=
  match argv with
  | [] => (Except.ok (), fs)
  | _ => mainRun env (argv.map pyLower) fs

/-- True when some link in the links directory targets a binary owned by
the given version's install root. -/
def hasAliasOf (version : String) (fs : FS) : Bool :=
  fs.links.any (fun l => l.tgtVersion == version)

/-- A directory probe yields `none` exactly when no entry carries the name. -/
theorem findDir_eq_none (fs : FS) (n : String) :
    findDir fs n = none ↔ ∀ d ∈ fs.download, d.name ≠ n := by
  simp [findDir, List.find?_eq_none]

/-- Absence of a directory, phrased through `findDir`. -/
theorem hasDir_eq_false (fs : FS) (n : String) :
    hasDir fs n = false ↔ findDir fs n = none := by
  unfold hasDir
  cases findDir fs n <;> simp

/-- Searching a filtered list finds nothing when the filter contradicts the
search predicate. -/
theorem find?_filter_conflict {α : Type} (p q : α → Bool)
    (h : ∀ x, p x = true → q x = false) (l : List α) :
    (l.filter q).find? p = none := by
  rw [List.find?_eq_none]
  intro x hx hp
  have hq := (List.mem_filter.mp hx).2
  rw [h x hp] at hq
  exact Bool.false_ne_true hq

/-- Filtering by a predicate implied by the search predicate does not change
the search result. -/
theorem find?_filter_imp {α : Type} (p q : α → Bool)
    (h : ∀ x, p x = true → q x = true) (l : List α) :
    (l.filter q).find? p = l.find? p := by
  induction l with
  | nil => rfl
  | cons x xs ih =>
    cases hq : q x
    · cases hp : p x
      · simp [List.filter_cons, List.find?_cons, hq, hp, ih]
      · exact absurd (h x hp) (by simp [hq])
    · cases hp : p x <;> simp [List.filter_cons, List.find?_cons, hq, hp, ih]

/-- Directory lookups depend only on the artifact root contents. -/
theorem findDir_congr (fs gs : FS) (n : String) (h : fs.download = gs.download) :
    findDir fs n = findDir gs n := by
  unfold findDir
  rw [h]

/-- After recording directory `d`, looking up its name finds it. -/
theorem findDir_setDir_self (fs : FS) (d : FsDir) :
    findDir (setDir fs d) d.name = some d := by
  unfold findDir setDir
  simp only [List.find?_append]
  rw [find?_filter_conflict (fun x => x.name == d.name) (fun x => !(x.name == d.name))
    (fun x hx => by simp [hx]) fs.download]
  simp [List.find?_cons]

/-- Recording directory `d` does not affect lookups of other names. -/
theorem findDir_setDir_ne (fs : FS) (d : FsDir) (n : String) (h : n ≠ d.name) :
    findDir (setDir fs d) n = findDir fs n := by
  unfold findDir setDir
  simp only [List.find?_append]
  rw [find?_filter_imp (fun x => x.name == n) (fun x => !(x.name == d.name))
    (fun x hx => by
      have : x.name = n := by simpa using hx
      simp [this, h]) fs.download]
  cases hf : fs.download.find? (fun x => x.name == n) with
  | some a => simp
  | none => simp [List.find?_cons, show (d.name == n) = false by simp [Ne.symm h]]

/-- A deleted directory is gone. -/
theorem findDir_removeDirFS_self (fs : FS) (n : String) :
    findDir (removeDirFS fs n) n = none := by
  unfold findDir removeDirFS
  exact find?_filter_conflict _ _ (fun x hx => by simp [show x.name = n by simpa using hx])
    fs.download

/-- Deleting one directory does not affect lookups of other names. -/
theorem findDir_removeDirFS_ne (fs : FS) (m n : String) (h : n ≠ m) :
    findDir (removeDirFS fs m) n = findDir fs n := by
  unfold findDir removeDirFS
  exact find?_filter_imp _ _
    (fun x hx => by
      have : x.name = n := by simpa using hx
      simp [this, h]) fs.download

/-- Recording a directory leaves the links directory untouched. -/
theorem setDir_links (fs : FS) (d : FsDir) : (setDir fs d).links = fs.links := rfl

/-- Deleting a directory leaves the links directory untouched. -/
theorem removeDirFS_links (fs : FS) (n : String) : (removeDirFS fs n).links = fs.links := rfl

/-- When link names are distinct, a successful erase removes exactly the
links carrying the target name. -/
theorem eraseLink_some_eq_filter (n : String) :
    ∀ links : List FsLink, (links.map FsLink.name).Nodup →
      ∀ ls, eraseLink links n = some ls →
        ls = links.filter (fun l => !(l.name == n)) := by
  intro links
  induction links with
  | nil => intro _ ls h; exact absurd h (by simp [eraseLink])
  | cons l ls0 ih =>
    intro hnd ls h
    rw [eraseLink] at h
    by_cases hl : (l.name == n) = true
    · rw [if_pos hl] at h
      injection h with h; subst h
      rw [List.filter_cons, if_neg (by simp [hl])]
      symm
      rw [List.filter_eq_self]
      intro a ha
      have hln : l.name = n := by simpa using hl
      have hmem : a.name ∈ ls0.map FsLink.name := List.mem_map_of_mem FsLink.name ha
      have hnotin : l.name ∉ ls0.map FsLink.name := by
        simp only [List.map_cons, List.nodup_cons] at hnd
        exact hnd.1
      have hane : a.name ≠ n := by
        intro hc
        exact hnotin (by rw [hln, ← hc]; exact hmem)
      simp [hane]
    · rw [if_neg hl] at h
      cases he : eraseLink ls0 n with
      | none => rw [he] at h; exact absurd h (by simp)
      | some ls1 =>
        rw [he] at h
        simp only [Option.map_some'] at h
        have htl : (ls0.map FsLink.name).Nodup := by
          simp only [List.map_cons, List.nodup_cons] at hnd
          exact hnd.2
        have hlf : (l.name == n) = false := by simp only [Bool.not_eq_true] at hl; exact hl
        rw [List.filter_cons, if_pos (by simp [hlf])]
        injection h with h
        rw [← h, ih htl ls1 he]

/-- Erasing succeeds whenever some link carries the target name. -/
theorem eraseLink_mem (n : String) :
    ∀ links : List FsLink, (∃ l ∈ links, l.name = n) →
      ∃ ls, eraseLink links n = some ls := by
  intro links
  induction links with
  | nil => rintro ⟨l, hl, -⟩; exact absurd hl (List.not_mem_nil l)
  | cons l ls0 ih =>
    rintro ⟨a, ha, han⟩
    by_cases hl : (l.name == n) = true
    · exact ⟨ls0, by simp [eraseLink, hl]⟩
    · cases List.mem_cons.mp ha with
      | inl h => exact absurd (by rw [← h]; simp [han]) hl
      | inr h =>
        obtain ⟨ls1, he⟩ := ih ⟨a, h, han⟩
        exact ⟨l :: ls1, by simp [eraseLink, hl, he]⟩

/-- When link names are distinct, a symlink-removal loop that returns
without raising leaves the artifact root untouched and removes from the
links directory exactly the links whose names were listed. -/
theorem removeLinks_ok_state (ns : List String) :
    ∀ fs fs' : FS, (fs.links.map FsLink.name).Nodup →
      removeLinks ns fs = (Except.ok (), fs') →
      fs'.download = fs.download ∧
        fs'.links = fs.links.filter (fun l => decide (l.name ∉ ns)) := by
  induction ns with
  | nil =>
    intro fs fs' _ h
    simp only [removeLinks] at h
    injection h with h1 h2
    subst h2
    refine ⟨rfl, ?_⟩
    symm
    rw [List.filter_eq_self]
    intro a _
    simp
  | cons n ns ih =>
    intro fs fs' hnd h
    cases he : eraseLink fs.links n with
    | none => simp [removeLinks, osRemoveLink, he] at h
    | some ls =>
      simp only [removeLinks, osRemoveLink, he] at h
      have hls := eraseLink_some_eq_filter n fs.links hnd ls he
      have hnd2 : (ls.map FsLink.name).Nodup := by
        refine List.Nodup.sublist ?_ hnd
        rw [hls]
        exact List.Sublist.map _ (List.filter_sublist _)
      obtain ⟨hd, hl⟩ := ih { fs with links := ls } fs' hnd2 h
      refine ⟨hd, ?_⟩
      rw [hl]
      show ls.filter _ = _
      rw [hls, List.filter_filter]
      apply List.filter_congr
      intro a _
      by_cases h1 : a.name = n <;> by_cases h2 : a.name ∈ ns <;> simp [h1, h2]

/-- When every listed name is present (and names are distinct on both
sides), the symlink-removal loop succeeds and removes exactly the listed
names. -/
theorem removeLinks_all_present (ns : List String) :
    ∀ fs : FS, (fs.links.map FsLink.name).Nodup → ns.Nodup →
      (∀ n ∈ ns, ∃ l ∈ fs.links, l.name = n) →
      removeLinks ns fs =
        (Except.ok (), { fs with links := fs.links.filter (fun l => decide (l.name ∉ ns)) }) := by
  induction ns with
  | nil =>
    intro fs _ _ _
    have hfl : fs.links.filter (fun l => decide (l.name ∉ ([] : List String))) = fs.links := by
      rw [List.filter_eq_self]
      intro a _
      simp
    rw [hfl]
    rfl
  | cons n ns ih =>
    intro fs hnd hnsnd hpres
    obtain ⟨a, ha, han⟩ := hpres n (List.mem_cons_self n ns)
    obtain ⟨ls, he⟩ := eraseLink_mem n fs.links ⟨a, ha, han⟩
    have hls := eraseLink_some_eq_filter n fs.links hnd ls he
    have hnod : ns.Nodup ∧ n ∉ ns := by
      rw [List.nodup_cons] at hnsnd
      exact ⟨hnsnd.2, hnsnd.1⟩
    have hnd2 : (ls.map FsLink.name).Nodup := by
      refine List.Nodup.sublist ?_ hnd
      rw [hls]
      exact List.Sublist.map _ (List.filter_sublist _)
    have hpres2 : ∀ m ∈ ns, ∃ l ∈ ({ fs with links := ls } : FS).links, l.name = m := by
      intro m hm
      obtain ⟨l, hl, hln⟩ := hpres m (List.mem_cons_of_mem n hm)
      refine ⟨l, ?_, hln⟩
      show l ∈ ls
      rw [hls, List.mem_filter]
      have hmn : m ≠ n := fun hc => hnod.2 (hc ▸ hm)
      exact ⟨hl, by simp [hln, hmn]⟩
    simp only [removeLinks, osRemoveLink, he]
    rw [ih { fs with links := ls } hnd2 hnod.1 hpres2]
    have hlinks : ls.filter (fun l => decide (l.name ∉ ns)) =
        fs.links.filter (fun l => decide (l.name ∉ n :: ns)) := by
      rw [hls, List.filter_filter]
      apply List.filter_congr
      intro a _
      by_cases h1 : a.name = n <;> by_cases h2 : a.name ∈ ns <;> simp [h1, h2]
    show (Except.ok (), ({ fs with links := ls.filter _ } : FS)) = _
    rw [hlinks]

/-- A run of the publish loop that returns (with either result) leaves the
artifact root untouched, only appends links that are aliases of the
published version, and preserves distinctness of link names. -/
theorem createLinksGo_spec (env : SysEnv) (version : String) :
    ∀ (exes : List String) (fs : FS) (r : Bool) (fs' : FS),
      createLinksGo env version exes fs = (Except.ok r, fs') →
      fs'.download = fs.download ∧
        (∀ l ∈ fs'.links, l ∈ fs.links ∨ ∃ e ∈ exes, l = mkAlias version e) ∧
        ((fs.links.map FsLink.name).Nodup → (fs'.links.map FsLink.name).Nodup) := by
  intro exes
  induction exes with
  | nil =>
    intro fs r fs' h
    simp only [createLinksGo] at h
    injection h with h1 h2
    subst h2
    exact ⟨rfl, fun l hl => Or.inl hl, fun hn => hn⟩
  | cons e es ih =>
    intro fs r fs' h
    simp only [createLinksGo] at h
    by_cases hg : (fs.links.any (fun l => l.name == aliasName version e)
        || decide (aliasName version e ∈ env.lnFails)) = true
    · rw [if_pos hg] at h
      injection h with h1 h2
      subst h2
      exact ⟨rfl, fun l hl => Or.inl hl, fun hn => hn⟩
    · rw [if_neg hg] at h
      have hany : ∀ l ∈ fs.links, l.name ≠ aliasName version e := by
        intro l hl hc
        apply hg
        rw [Bool.or_eq_true]
        exact Or.inl (List.any_eq_true.mpr ⟨l, hl, by simp [hc]⟩)
      obtain ⟨hd, hmem, hnd⟩ := ih _ r fs' h
      refine ⟨hd, ?_, ?_⟩
      · intro l hl
        rcases hmem l hl with hin | ⟨e', he', heq⟩
        · rcases List.mem_append.mp hin with h1 | h1
          · exact Or.inl h1
          · exact Or.inr ⟨e, List.mem_cons_self e es, by simpa using h1⟩
        · exact Or.inr ⟨e', List.mem_cons_of_mem e he', heq⟩
      · intro hnd0
        apply hnd
        show ((fs.links ++ [mkAlias version e]).map FsLink.name).Nodup
        rw [List.map_append, List.nodup_append]
        refine ⟨hnd0, by simp, ?_⟩
        intro x hx hx1
        have hxe : x = aliasName version e := by simpa [mkAlias] using hx1
        obtain ⟨l, hl, hln⟩ := List.mem_map.mp hx
        exact hany l hl (by rw [hln, hxe])

/-- When no alias name is already taken and none is made to fail, the
publish loop succeeds and appends exactly one alias link per executable. -/
theorem createLinksGo_success (env : SysEnv) (version : String) :
    ∀ (exes : List String) (fs : FS),
      (∀ e ∈ exes, (∀ l ∈ fs.links, l.name ≠ aliasName version e) ∧
        aliasName version e ∉ env.lnFails) →
      (exes.map (aliasName version)).Nodup →
      createLinksGo env version exes fs =
        (Except.ok true, { fs with links := fs.links ++ exes.map (mkAlias version) }) := by
  intro exes
  induction exes with
  | nil =>
    intro fs _ _
    simp only [createLinksGo, List.map_nil, List.append_nil]
  | cons e es ih =>
    intro fs hfree hnd
    have h1 := hfree e (List.mem_cons_self e es)
    have hguard : (fs.links.any (fun l => l.name == aliasName version e)
        || decide (aliasName version e ∈ env.lnFails)) = false := by
      rw [Bool.or_eq_false_iff]
      constructor
      · rw [List.any_eq_false]
        intro l hl
        simp [h1.1 l hl]
      · simp [h1.2]
    have hndc : aliasName version e ∉ es.map (aliasName version) ∧
        (es.map (aliasName version)).Nodup := by
      simp only [List.map_cons, List.nodup_cons] at hnd
      exact hnd
    simp only [createLinksGo, hguard, Bool.false_eq_true, if_false]
    rw [ih { fs with links := fs.links ++ [mkAlias version e] } ?_ hndc.2]
    · show (Except.ok true, ({ fs with links := (fs.links ++ [mkAlias version e]) ++ _ } : FS)) = _
      rw [List.append_assoc]
      rfl
    · intro e' he'
      have h2 := hfree e' (List.mem_cons_of_mem e he')
      refine ⟨?_, h2.2⟩
      intro l hl
      rcases List.mem_append.mp hl with h3 | h3
      · exact h2.1 l h3
      · have hle : l = mkAlias version e := by simpa using h3
        rw [hle]
        show aliasName version e ≠ aliasName version e'
        intro hc
        exact hndc.1 (hc ▸ List.mem_map_of_mem (aliasName version) he')

/-- Erasing finds nothing when no link carries the target name. -/
theorem eraseLink_none (n : String) :
    ∀ links : List FsLink, (∀ l ∈ links, l.name ≠ n) → eraseLink links n = none := by
  intro links
  induction links with
  | nil => intro _; rfl
  | cons l ls ih =>
    intro h
    rw [eraseLink, if_neg (by simp [h l (List.mem_cons_self l ls)]),
      ih (fun x hx => h x (List.mem_cons_of_mem l hx))]
    rfl

/-- C3 (amended): purging a VersionID with no installation present is a
no-op for every VersionID — it returns cleanly and changes nothing, so a
completed remove can be re-invoked safely; but unpublish does not treat an
absent alias as benign: when the installation is present and the first
expected alias symlink is missing, removal raises `FileNotFoundError` after
having deleted the install root. -/
theorem purge_absent_noop (version : String) (fs : FS) :
    (hasDir fs version = false → delete_version version fs = (Except.ok (), fs)) ∧
    (∀ (e : String) (es : List String),
      findDir fs version = some { name := version, bin := some (e :: es) } →
      (∀ l ∈ fs.links, l.name ≠ aliasName version e) →
      delete_version version fs = (Except.error Err.fileNotFound, removeDirFS fs version)) := by
  constructor
  · intro h
    unfold delete_version
    rw [(hasDir_eq_false fs version).mp h]
  · intro e es hfind hmiss
    unfold delete_version
    rw [hfind]
    have hnone : eraseLink (removeDirFS fs version).links (aliasName version e) = none :=
      eraseLink_none (aliasName version e) fs.links hmiss
    simp only [List.map_cons, removeLinks, osRemoveLink, hnone]

/-- Counterexample to C3's unpublish half: for an installed version whose
alias symlink is absent from the links directory, removal raises instead of
treating the absence as a no-op. -/
theorem delete_absent_alias_errors :
    delete_version ("3.9")
        { download := [{ name := ("3.9"), bin := some [("python3.9")] }], links := [] } =
      (Except.error Err.fileNotFound, { download := [], links := [] }) := by
  decide

/-- Witness for `purge_absent_noop`: the no-op on an empty system and the
raising removal on an installation with a missing alias. -/
theorem purge_absent_noop_w :
    delete_version ("3.9.1") { download := [], links := [] } =
      (Except.ok (), { download := [], links := [] }) ∧
    delete_version ("3.9")
        { download := [{ name := ("3.9"), bin := some [("python3.9")] }], links := [] } =
      (Except.error Err.fileNotFound,
        removeDirFS { download := [{ name := ("3.9"), bin := some [("python3.9")] }], links := [] } ("3.9")) :=
  ⟨(purge_absent_noop ("3.9.1") { download := [], links := [] }).1 (by decide),
   (purge_absent_noop ("3.9")
       { download := [{ name := ("3.9"), bin := some [("python3.9")] }], links := [] }).2
     ("python3.9") [] (by decide) (by decide)⟩

/-- C6: when the version validates and an installation already exists,
declining the overwrite confirmation makes install return failure with the
filesystem — install root and published aliases alike — completely
unchanged. -/
theorem overwrite_decline_no_change (env : SysEnv) (version : String) (fs : FS)
    (hver : verify_python_version env.net version = Except.ok true)
    (hdir : hasDir fs version = true)
    (hconf : env.confirmInstall = false) :
    install env version fs = (Except.ok false, fs) := by
  unfold install
  rw [hver]
  simp [hdir, hconf]

/-- An environment whose external steps all succeed but whose install
confirmation is declined. -/
def envDecline : SysEnv :=
  { net := some [("parent"), ("3.9.1/")]
    confirmInstall := false
    confirmRemove := true
    confirmClean := true
    fetchOk := true
    extractOk := true
    configureOk := true
    nprocOk := true
    makeOk := true
    altinstallOk := true
    altinstallBin := [("python3.9")]
    altinstallPartialBin := none
    lnFails := [] }

/-- A state with version 3.9.1 installed and its alias published. -/
def fsInstalled : FS :=
  { download := [{ name := ("3.9.1"), bin := some [("python3.9")] }]
    links := [{ name := ("altpy-python3.9.1"), tgtVersion := ("3.9.1"), tgtExe := ("python3.9") }] }

/-- Witness for `overwrite_decline_no_change` on a concrete installed state. -/
theorem overwrite_decline_no_change_w :
    install envDecline ("3.9.1") fsInstalled = (Except.ok false, fsInstalled) :=
  overwrite_decline_no_change envDecline ("3.9.1") fsInstalled (by decide) (by decide)
    (by decide)

/-- A state with two installed versions; 3.8.1's alias is missing from the
links directory, so removing 3.8.1 raises. -/
def fsTwoVersions : FS :=
  { download := [{ name := ("3.8.1"), bin := some [("python3.8")] }, { name := ("3.9.1"), bin := some [("python3.9")] }]
    links := [{ name := ("altpy-python3.9.1"), tgtVersion := ("3.9.1"), tgtExe := ("python3.9") }] }

/-- The state `clean` leaves behind after the failing removal of 3.8.1:
3.8.1's install root is gone but 3.9.1 is fully intact and never attempted. -/
def fsAfterCleanFail : FS :=
  { download := [{ name := ("3.9.1"), bin := some [("python3.9")] }]
    links := [{ name := ("altpy-python3.9.1"), tgtVersion := ("3.9.1"), tgtExe := ("python3.9") }] }

/-- Counterexample to C7: with two installed versions where removing the
first fails, clean raises immediately — the second version is never
attempted (its root and alias survive) and nothing reports which versions
failed (the result carries only the first exception). -/
theorem clean_abort_cex :
    clean_versions envDecline fsTwoVersions = (Except.error Err.fileNotFound, fsAfterCleanFail) ∧
    hasDir (clean_versions envDecline fsTwoVersions).2 ("3.9.1") = true ∧
    hasAliasOf ("3.9.1") (clean_versions envDecline fsTwoVersions).2 = true := by
  exact ⟨by decide, by decide, by decide⟩

/-- C7 (amended): clean deletes the listed versions strictly in order and
stops at the first failure — a failure removing one version prevents any
attempt on the remaining versions, whose state is untouched (the outcome is
independent of what follows the failing version), and no summary of failed
versions is collected; clean itself is the ordered sweep over the directory
listing taken once up front. -/
theorem clean_stops_at_first_failure :
    (∀ (vs₁ : List String) (v : String) (vs₂ : List String) (fs fs₁ fs₂ : FS) (e : Err),
      deleteAll vs₁ fs = (Except.ok (), fs₁) →
      delete_version v fs₁ = (Except.error e, fs₂) →
      deleteAll (vs₁ ++ v :: vs₂) fs = (Except.error e, fs₂)) ∧
    (∀ (env : SysEnv) (fs : FS), env.confirmClean = true → fs.download ≠ [] →
      clean_versions env fs = deleteAll (fs.download.map FsDir.name) fs) := by
  constructor
  · intro vs₁
    induction vs₁ with
    | nil =>
      intro v vs₂ fs fs₁ fs₂ e h1 h2
      simp only [deleteAll] at h1
      injection h1 with h1a h1b
      subst h1b
      simp only [List.nil_append, deleteAll, h2]
    | cons w ws ih =>
      intro v vs₂ fs fs₁ fs₂ e h1 h2
      rw [List.cons_append]
      simp only [deleteAll] at h1 ⊢
      cases hw : delete_version w fs with
      | mk r fs0 =>
        rw [hw] at h1
        cases r with
        | error e' => simp at h1
        | ok u => exact ih v vs₂ fs0 fs₁ fs₂ e h1 h2
  · intro env fs hc hne
    unfold clean_versions
    rw [hc]
    have hemp : (fs.download.map FsDir.name).isEmpty = false := by
      cases hd : fs.download with
      | nil => exact absurd hd hne
      | cons a l => simp
    simp [hemp]

/-- Witness for `clean_stops_at_first_failure` on the two-version state:
the failing first removal aborts the sweep before 3.9.1 is attempted. -/
theorem clean_stops_at_first_failure_w :
    delete_version ("3.8.1") fsTwoVersions = (Except.error Err.fileNotFound, fsAfterCleanFail) ∧
    deleteAll [("3.8.1"), ("3.9.1")] fsTwoVersions =
      (Except.error Err.fileNotFound, fsAfterCleanFail) ∧
    clean_versions envDecline fsTwoVersions = deleteAll [("3.8.1"), ("3.9.1")] fsTwoVersions :=
  ⟨by decide,
   clean_stops_at_first_failure.1 [] ("3.8.1") [("3.9.1")] fsTwoVersions fsTwoVersions
     fsAfterCleanFail Err.fileNotFound (by decide) (by decide),
   clean_stops_at_first_failure.2 envDecline fsTwoVersions (by decide) (by decide)⟩

/-- An environment in which the catalog listing is unreachable. -/
def envNetDown : SysEnv :=
  { net := none
    confirmInstall := true
    confirmRemove := true
    confirmClean := true
    fetchOk := true
    extractOk := true
    configureOk := true
    nprocOk := true
    makeOk := true
    altinstallOk := true
    altinstallBin := [("python3.9")]
    altinstallPartialBin := none
    lnFails := [] }

/-- Counterexample to C8: with the catalog unreachable, removing an
already-installed version is blocked — `main` raises the network error
before consulting local state, and nothing is removed. -/
theorem remove_blocked_by_catalog_cex :
    mainRun envNetDown [("remove"), ("3.9.1")] fsInstalled =
      (Except.error Err.network, fsInstalled) ∧
    hasDir (mainRun envNetDown [("remove"), ("3.9.1")] fsInstalled).2 ("3.9.1") = true := by
  exact ⟨by decide, by decide⟩

/-- C8 (amended): catalog unavailability is fatal for install (any
digit-initial version raises the network error with no state change), and
it equally blocks remove, which validates through the catalog before any
local check; only clean proceeds against local installed state — its
behavior depends on nothing in the environment but the confirmation. -/
theorem catalog_down_effects :
    (∀ (env : SysEnv) (version : String) (fs : FS), env.net = none →
      firstIsDigit version = true →
      install env version fs = (Except.error Err.network, fs)) ∧
    (∀ (env : SysEnv) (version : String) (fs : FS), env.net = none →
      firstIsDigit version = true →
      mainRun env [("remove"), version] fs = (Except.error Err.network, fs)) ∧
    (∀ (env₁ env₂ : SysEnv) (fs : FS), env₁.confirmClean = env₂.confirmClean →
      clean_versions env₁ fs = clean_versions env₂ fs) := by
  refine ⟨?_, ?_, ?_⟩
  · intro env version fs hnet hdig
    unfold install verify_python_version
    rw [hnet]
    simp [hdig]
  · intro env version fs hnet hdig
    have hrm : (("remove" : String) == ("install")) = false := by decide
    have hrr : (("remove" : String) == ("remove")) = true := by decide
    unfold mainRun verify_python_version
    rw [hnet]
    simp [hrm, hrr, hdig]
  · intro env₁ env₂ fs h
    unfold clean_versions
    rw [h]

/-- Witness for `catalog_down_effects` at concrete states. -/
theorem catalog_down_effects_w :
    install envNetDown ("3.9.1") fsInstalled = (Except.error Err.network, fsInstalled) ∧
    mainRun envNetDown [("remove"), ("3.9.1")] { download := [], links := [] } =
      (Except.error Err.network, { download := [], links := [] }) ∧
    clean_versions envNetDown fsInstalled = clean_versions envDecline fsInstalled :=
  ⟨catalog_down_effects.1 envNetDown ("3.9.1") fsInstalled rfl (by decide),
   catalog_down_effects.2.1 envNetDown ("3.9.1") { download := [], links := [] } rfl (by decide),
   catalog_down_effects.2.2 envNetDown envDecline fsInstalled (by decide)⟩

/-- C10: before dispatch every command-line argument — command name and
version alike — is folded to lowercase, and any casing of the install
command dispatches to the orchestrator with the lowercased version
identifier, which is the value that then reaches catalog validation,
download-URL construction and install-path construction. -/
theorem args_lowercased :
    (∀ (env : SysEnv) (args : List String) (fs : FS), args ≠ [] →
      mainEntry env args fs = mainRun env (args.map pyLower) fs) ∧
    (∀ (env : SysEnv) (cmd version : String) (fs : FS), pyLower cmd = ("install") →
      mainEntry env [cmd, version] fs = runInstallCmd env (pyLower version) fs) := by
  constructor
  · intro env args fs hne
    cases args with
    | nil => exact absurd rfl hne
    | cons a l => rfl
  · intro env cmd version fs h
    show mainRun env ([cmd, version].map pyLower) fs = _
    simp only [List.map_cons, List.map_nil]
    unfold mainRun
    rw [h]
    simp

/-- Witness for `args_lowercased`: a mixed-case install command is folded and
dispatched with its version lowercased. -/
theorem args_lowercased_w :
    mainEntry envDecline [("CLEAN")] fsInstalled =
      mainRun envDecline ([("CLEAN")].map pyLower) fsInstalled ∧
    mainEntry envDecline [("InStAll"), ("3.9.1")] fsInstalled =
      runInstallCmd envDecline (pyLower ("3.9.1")) fsInstalled :=
  ⟨args_lowercased.1 envDecline [("CLEAN")] fsInstalled (by decide),
   args_lowercased.2 envDecline ("InStAll") ("3.9.1") fsInstalled (by decide)⟩

/-- A state with version 3.9.1 installed (executable python3.9) and no
aliases yet published. -/
def fsC2 : FS :=
  { download := [{ name := ("3.9.1"), bin := some [("python3.9")] }]
    links := [] }

/-- Counterexample to C2's naming rule: for long-form identifier 3.9.1 with
executable python3.9, publish creates the alias altpy-python3.9.1 — the
executable name with the full version substituted for its short suffix —
and not altpy-python3.9 as the claim's pythonX.Y rule states. -/
theorem publish_alias_name_cex :
    create_symlinks envDecline ("3.9.1") fsC2 =
      (Except.ok true,
        { download := [{ name := ("3.9.1"), bin := some [("python3.9")] }], links := [{ name := ("altpy-python3.9.1"), tgtVersion := ("3.9.1"), tgtExe := ("python3.9") }] }) ∧
    (create_symlinks envDecline ("3.9.1") fsC2).2.links.map FsLink.name =
      [("altpy-python3.9.1")] ∧
    ¬ ("altpy-python3.9") ∈ (create_symlinks envDecline ("3.9.1") fsC2).2.links.map FsLink.name := by
  exact ⟨by decide, by decide, by decide⟩

/-- C2 (amended): for an installed version, publish creates exactly one
symlink per executable of its bin directory, named `altpy-` followed by the
executable name with every occurrence of the identifier's first three
characters replaced by the full identifier when the identifier is long-form
(executables pythonX.Y therefore yield aliases altpy-<full version as
substituted>), each link targeting the real binary of that version; and
unpublish of the version then removes exactly that alias set, leaving every
other link — in particular aliases of other installed versions — in place. -/
theorem publish_unpublish_round_trip (env : SysEnv) (version : String) (exes : List String)
    (fs : FS)
    (hdir : findDir fs version = some { name := version, bin := some exes })
    (hfree : ∀ e ∈ exes, ∀ l ∈ fs.links, l.name ≠ aliasName version e)
    (hln : ∀ e ∈ exes, aliasName version e ∉ env.lnFails)
    (hexnd : (exes.map (aliasName version)).Nodup)
    (hlnd : (fs.links.map FsLink.name).Nodup) :
    create_symlinks env version fs =
      (Except.ok true, { fs with links := fs.links ++ exes.map (mkAlias version) }) ∧
    delete_version version { fs with links := fs.links ++ exes.map (mkAlias version) } =
      (Except.ok (), { fs with download := fs.download.filter (fun d => !(d.name == version)) }) := by
  have hname : FsLink.name ∘ mkAlias version = aliasName version := rfl
  constructor
  · unfold create_symlinks
    rw [hdir]
    exact createLinksGo_success env version exes fs (fun e he => ⟨hfree e he, hln e he⟩) hexnd
  · unfold delete_version
    have hfindP : findDir { fs with links := fs.links ++ exes.map (mkAlias version) } version =
        some { name := version, bin := some exes } := by
      rw [findDir_congr { fs with links := fs.links ++ exes.map (mkAlias version) } fs
        version rfl]
      exact hdir
    rw [hfindP]
    have hnodP :
        (((removeDirFS { fs with links := fs.links ++ exes.map (mkAlias version) }
          version).links).map FsLink.name).Nodup := by
      show ((fs.links ++ exes.map (mkAlias version)).map FsLink.name).Nodup
      rw [List.map_append, List.map_map, hname, List.nodup_append]
      refine ⟨hlnd, hexnd, ?_⟩
      intro x hx hx2
      obtain ⟨l, hl, hln2⟩ := List.mem_map.mp hx
      obtain ⟨e, he, he2⟩ := List.mem_map.mp hx2
      exact hfree e he l hl (hln2.trans he2.symm)
    have hpres : ∀ n ∈ exes.map (aliasName version),
        ∃ l ∈ (removeDirFS { fs with links := fs.links ++ exes.map (mkAlias version) }
          version).links, l.name = n := by
      intro n hn
      obtain ⟨e, he, hne⟩ := List.mem_map.mp hn
      refine ⟨mkAlias version e, ?_, hne⟩
      show mkAlias version e ∈ fs.links ++ exes.map (mkAlias version)
      exact List.mem_append.mpr (Or.inr (List.mem_map_of_mem _ he))
    show removeLinks (exes.map (aliasName version))
        (removeDirFS { fs with links := fs.links ++ exes.map (mkAlias version) } version) = _
    rw [removeLinks_all_present (exes.map (aliasName version)) _ hnodP hexnd hpres]
    have hlinks : (fs.links ++ exes.map (mkAlias version)).filter
        (fun l => decide (l.name ∉ exes.map (aliasName version))) = fs.links := by
      rw [List.filter_append]
      have h1 : fs.links.filter (fun l => decide (l.name ∉ exes.map (aliasName version))) =
          fs.links := by
        rw [List.filter_eq_self]
        intro l hl
        simp only [decide_eq_true_eq]
        intro hc
        obtain ⟨e, he, hne⟩ := List.mem_map.mp hc
        exact hfree e he l hl hne.symm
      have h2 : (exes.map (mkAlias version)).filter
          (fun l => decide (l.name ∉ exes.map (aliasName version))) = [] := by
        rw [List.filter_eq_nil_iff]
        intro l hl
        obtain ⟨e, he, hle⟩ := List.mem_map.mp hl
        simp only [decide_eq_true_eq, not_not]
        rw [← hle]
        show aliasName version e ∈ _
        exact List.mem_map_of_mem _ he
      rw [h1, h2, List.append_nil]
    have hdl : (removeDirFS { fs with links := fs.links ++ exes.map (mkAlias version) }
        version).download = fs.download.filter (fun d => !(d.name == version)) := rfl
    have hlk : (removeDirFS { fs with links := fs.links ++ exes.map (mkAlias version) }
        version).links = fs.links ++ exes.map (mkAlias version) := rfl
    rw [hdl, hlk, hlinks]

/-- A state with version 3.9.1 installed (two executables) and an unrelated
alias belonging to a different version already published. -/
def fsC2b : FS :=
  { download := [{ name := ("3.9.1"), bin := some [("python3.9"), ("pip3.9")] }]
    links := [{ name := ("altpy-python2.7"), tgtVersion := ("2.7"), tgtExe := ("python2.7") }] }

/-- Witness for `publish_unpublish_round_trip`: publishing 3.9.1 creates
exactly its two aliases and unpublishing removes exactly those two, leaving
the other version's alias untouched. -/
theorem publish_unpublish_round_trip_w :
    create_symlinks envDecline ("3.9.1") fsC2b =
      (Except.ok true, { fsC2b with
        links := fsC2b.links ++ [("python3.9"), ("pip3.9")].map (mkAlias ("3.9.1")) }) ∧
    delete_version ("3.9.1") { fsC2b with
        links := fsC2b.links ++ [("python3.9"), ("pip3.9")].map (mkAlias ("3.9.1")) } =
      (Except.ok (), { fsC2b with
        download := fsC2b.download.filter (fun d => !(d.name == ("3.9.1"))) }) :=
  publish_unpublish_round_trip envDecline ("3.9.1") [("python3.9"), ("pip3.9")] fsC2b
    (by decide) (by decide) (by decide) (by decide) (by decide)

/-- An environment in which fetch, extract, configure and make succeed but
`make altinstall` fails after having created a partial install root. -/
def envAltinstallFail : SysEnv :=
  { net := some [("parent"), ("3.9.1/")]
    confirmInstall := true
    confirmRemove := true
    confirmClean := true
    fetchOk := true
    extractOk := true
    configureOk := true
    nprocOk := true
    makeOk := true
    altinstallOk := false
    altinstallBin := []
    altinstallPartialBin := some [("python3.9")]
    lnFails := [] }

/-- Counterexample to C1: injecting a failure at the install-to-prefix step
(`make altinstall` fails after creating the install root), install returns
failure, yet the install root for the VersionID still exists on disk — the
rollback removes only the staging tree, never the install root. -/
theorem install_altinstall_failure_leaves_root :
    (install envAltinstallFail ("3.9.1") { download := [], links := [] }).1 =
      Except.ok false ∧
    hasDir (install envAltinstallFail ("3.9.1") { download := [], links := [] }).2
      ("3.9.1") = true := by
  exact ⟨by decide, by decide⟩

/-- Cleanup facts for a build-step failure from a NotPresent start: the
pipeline's final state is the start state with the staging tree removed. -/
theorem build_fail_cleanup (version : String) (fs fs' : FS)
    (hv : hasDir fs version = false)
    (ha : hasAliasOf version fs = false)
    (hvne : version ≠ buildDirName version)
    (heq : fs' = removeDirFS (setDir fs { name := buildDirName version, bin := none })
      (buildDirName version)) :
    hasDir fs' version = false ∧ hasAliasOf version fs' = false ∧
      hasDir fs' (buildDirName version) = false := by
  subst heq
  refine ⟨?_, ?_, ?_⟩
  · rw [hasDir_eq_false, findDir_removeDirFS_ne _ _ _ hvne]
    rw [show findDir (setDir fs { name := buildDirName version, bin := none }) version =
      findDir fs version from findDir_setDir_ne fs _ version hvne]
    exact (hasDir_eq_false fs version).mp hv
  · exact ha
  · rw [hasDir_eq_false]
    exact findDir_removeDirFS_self _ _

/-- Rollback facts for the publish-failure path: when publishing from a
consistent state reports failure and the subsequent `delete_version`
completes without raising, no install root, no alias of the version and no
staging tree remain. -/
theorem publish_fail_rollback (env : SysEnv) (version : String) (fs3 fs4 fs5 : FS)
    (hfd3 : findDir fs3 version = some { name := version, bin := some env.altinstallBin })
    (hlnd3 : (fs3.links.map FsLink.name).Nodup)
    (ha3 : hasAliasOf version fs3 = false)
    (hpv3 : hasDir fs3 (buildDirName version) = false)
    (hcr : createLinksGo env version env.altinstallBin fs3 = (Except.ok false, fs4))
    (hdel4 : delete_version version fs4 = (Except.ok (), fs5)) :
    hasDir fs5 version = false ∧ hasAliasOf version fs5 = false ∧
      hasDir fs5 (buildDirName version) = false := by
  obtain ⟨hd4, hmem4, hnd4⟩ := createLinksGo_spec env version env.altinstallBin fs3 false fs4 hcr
  have hnd4' : (fs4.links.map FsLink.name).Nodup := hnd4 hlnd3
  have hfd4 : findDir fs4 version = some { name := version, bin := some env.altinstallBin } := by
    rw [findDir_congr fs4 fs3 version hd4]
    exact hfd3
  have hrem : removeLinks (env.altinstallBin.map (aliasName version))
      (removeDirFS fs4 version) = (Except.ok (), fs5) := by
    have h := hdel4
    unfold delete_version at h
    rw [hfd4] at h
    exact h
  obtain ⟨hdl5, hlk5⟩ := removeLinks_ok_state (env.altinstallBin.map (aliasName version))
    (removeDirFS fs4 version) fs5 (by exact hnd4') hrem
  refine ⟨?_, ?_, ?_⟩
  · rw [hasDir_eq_false, findDir_eq_none]
    intro d hd
    rw [hdl5] at hd
    have hd2 := List.mem_filter.mp
      (show d ∈ fs4.download.filter (fun x => !(x.name == version)) from hd)
    intro hdn
    rw [hdn] at hd2
    simp at hd2
  · show fs5.links.any _ = false
    rw [List.any_eq_false]
    intro l hl
    rw [hlk5] at hl
    have hl2 := List.mem_filter.mp
      (show l ∈ fs4.links.filter
        (fun x => decide (x.name ∉ env.altinstallBin.map (aliasName version))) from hl)
    rcases hmem4 l hl2.1 with hin | ⟨e, he, heq⟩
    · exact List.any_eq_false.mp ha3 l hin
    · exfalso
      have hname : l.name = aliasName version e := by rw [heq]; rfl
      have hni := hl2.2
      rw [hname] at hni
      simp only [decide_eq_true_eq] at hni
      exact hni (List.mem_map_of_mem _ he)
  · rw [hasDir_eq_false, findDir_eq_none]
    intro d hd
    rw [hdl5] at hd
    have hd2 := List.mem_filter.mp
      (show d ∈ fs4.download.filter (fun x => !(x.name == version)) from hd)
    have hd3 : d ∈ fs3.download := by
      rw [← hd4]
      exact hd2.1
    exact (findDir_eq_none fs3 (buildDirName version)).mp
      ((hasDir_eq_false _ _).mp hpv3) d hd3

/-- C1 (amended): starting from the NotPresent state (no install root, no
staging tree, no alias of the VersionID, distinct link names), whenever
install returns a reported failure and the injected install-to-prefix
failure created no partial install root, the system is back in NotPresent:
no install root, no alias of the VersionID and no staging tree exist.  (The
carve-out is forced by the counterexample: a failing `make altinstall` that
does create an install root is not rolled back — install removes only the
staging tree — and fetch or extraction failures raise instead of returning
failure, so they never reach this statement's premise.) -/
theorem install_rollback (env : SysEnv) (version : String) (fs fs' : FS)
    (hv : hasDir fs version = false)
    (hpv : hasDir fs (buildDirName version) = false)
    (ha : hasAliasOf version fs = false)
    (hnd : (fs.links.map FsLink.name).Nodup)
    (hnopart : env.altinstallPartialBin = none)
    (hrun : install env version fs = (Except.ok false, fs')) :
    hasDir fs' version = false ∧ hasAliasOf version fs' = false ∧
      hasDir fs' (buildDirName version) = false := by
  have hvne : version ≠ buildDirName version := by
    intro h
    have h2 := congrArg String.length h
    rw [buildDirName, String.length_append] at h2
    have h7 : ("Python-" : String).length = 7 := rfl
    rw [h7] at h2
    omega
  have hfvn : findDir fs version = none := (hasDir_eq_false fs version).mp hv
  cases hver : verify_python_version env.net version with
  | error e =>
    have hi : install env version fs = (Except.error e, fs) := by
      unfold install
      rw [hver]
    rw [hi] at hrun
    exact absurd hrun (by simp)
  | ok b =>
    cases b with
    | false =>
      have hi : install env version fs = (Except.ok false, fs) := by
        unfold install
        rw [hver]
      rw [hi] at hrun
      injection hrun with h1 h2
      subst h2
      exact ⟨hv, ha, hpv⟩
    | true =>
      have hi : install env version fs = installPipeline env version fs := by
        unfold install
        rw [hver, hv]
        simp
      rw [hi] at hrun
      cases hfetch : env.fetchOk with
      | false =>
        have hdl : download_python_version env version fs = (Except.error Err.fetchFail, fs) := by
          unfold download_python_version
          rw [hfetch]
          simp
        unfold installPipeline at hrun
        rw [hdl] at hrun
        simp at hrun
      | true =>
        cases hext : env.extractOk with
        | false =>
          have hdl : download_python_version env version fs =
              (Except.error Err.extractFail, fs) := by
            unfold download_python_version
            rw [hfetch, hext]
            simp
          unfold installPipeline at hrun
          rw [hdl] at hrun
          simp at hrun
        | true =>
          have hdl : download_python_version env version fs =
              (Except.ok (), setDir fs { name := buildDirName version, bin := none }) := by
            unfold download_python_version
            rw [hfetch, hext]
            simp
          have hfd1 : findDir (setDir fs { name := buildDirName version, bin := none })
              version = none := by
            rw [show findDir (setDir fs { name := buildDirName version, bin := none })
              version = findDir fs version from findDir_setDir_ne fs _ version hvne]
            exact hfvn
          have hdel1 : delete_version version
              (setDir fs { name := buildDirName version, bin := none }) =
              (Except.ok (), setDir fs { name := buildDirName version, bin := none }) := by
            unfold delete_version
            rw [hfd1]
          have hhd1 : hasDir (setDir fs { name := buildDirName version, bin := none })
              (buildDirName version) = true := by
            unfold hasDir
            rw [show findDir (setDir fs { name := buildDirName version, bin := none })
                (buildDirName version) =
                some { name := buildDirName version, bin := none } from
              findDir_setDir_self fs { name := buildDirName version, bin := none }]
            rfl
          cases hconf : env.configureOk with
          | false =>
            have hbuild : build_python_version env version
                (setDir fs { name := buildDirName version, bin := none }) =
                (Except.ok false, setDir fs { name := buildDirName version, bin := none }) := by
              unfold build_python_version
              rw [hdel1]
              simp [hhd1, hconf]
            have hpipe : installPipeline env version fs =
                (Except.ok false,
                  removeDirFS (setDir fs { name := buildDirName version, bin := none })
                    (buildDirName version)) := by
              unfold installPipeline
              rw [hdl]
              simp [hbuild, hhd1]
            rw [hpipe] at hrun
            injection hrun with h1 h2
            exact build_fail_cleanup version fs fs' hv ha hvne h2.symm
          | true =>
            cases hmake : env.makeOk with
            | false =>
              have hbuild : build_python_version env version
                  (setDir fs { name := buildDirName version, bin := none }) =
                  (Except.ok false,
                    setDir fs { name := buildDirName version, bin := none }) := by
                unfold build_python_version
                rw [hdel1]
                simp [hhd1, hconf, hmake]
              have hpipe : installPipeline env version fs =
                  (Except.ok false,
                    removeDirFS (setDir fs { name := buildDirName version, bin := none })
                      (buildDirName version)) := by
                unfold installPipeline
                rw [hdl]
                simp [hbuild, hhd1]
              rw [hpipe] at hrun
              injection hrun with h1 h2
              exact build_fail_cleanup version fs fs' hv ha hvne h2.symm
            | true =>
              cases hai : env.altinstallOk with
              | false =>
                have hbuild : build_python_version env version
                    (setDir fs { name := buildDirName version, bin := none }) =
                    (Except.ok false,
                      setDir fs { name := buildDirName version, bin := none }) := by
                  unfold build_python_version
                  rw [hdel1]
                  simp [hhd1, hconf, hmake, hai, hnopart]
                have hpipe : installPipeline env version fs =
                    (Except.ok false,
                      removeDirFS (setDir fs { name := buildDirName version, bin := none })
                        (buildDirName version)) := by
                  unfold installPipeline
                  rw [hdl]
                  simp [hbuild, hhd1]
                rw [hpipe] at hrun
                injection hrun with h1 h2
                exact build_fail_cleanup version fs fs' hv ha hvne h2.symm
              | true =>
                have hbuild : build_python_version env version
                    (setDir fs { name := buildDirName version, bin := none }) =
                    (Except.ok true,
                      removeDirFS
                        (setDir (setDir fs { name := buildDirName version, bin := none })
                          { name := version, bin := some env.altinstallBin })
                        (buildDirName version)) := by
                  unfold build_python_version
                  rw [hdel1]
                  simp [hhd1, hconf, hmake, hai]
                have hfd3 : findDir
                    (removeDirFS
                      (setDir (setDir fs { name := buildDirName version, bin := none })
                        { name := version, bin := some env.altinstallBin })
                      (buildDirName version)) version =
                    some { name := version, bin := some env.altinstallBin } := by
                  rw [findDir_removeDirFS_ne _ _ _ hvne]
                  exact findDir_setDir_self
                    (setDir fs { name := buildDirName version, bin := none })
                    { name := version, bin := some env.altinstallBin }
                have hcs : create_symlinks env version
                    (removeDirFS
                      (setDir (setDir fs { name := buildDirName version, bin := none })
                        { name := version, bin := some env.altinstallBin })
                      (buildDirName version)) =
                    createLinksGo env version env.altinstallBin
                      (removeDirFS
                        (setDir (setDir fs { name := buildDirName version, bin := none })
                          { name := version, bin := some env.altinstallBin })
                        (buildDirName version)) := by
                  unfold create_symlinks
                  rw [hfd3]
                rcases hcr : createLinksGo env version env.altinstallBin
                    (removeDirFS
                      (setDir (setDir fs { name := buildDirName version, bin := none })
                        { name := version, bin := some env.altinstallBin })
                      (buildDirName version)) with ⟨r, fs4⟩
                cases r with
                | error e =>
                  have hpipe : installPipeline env version fs = (Except.error e, fs4) := by
                    unfold installPipeline
                    rw [hdl]
                    simp [hbuild, hcs, hcr]
                  rw [hpipe] at hrun
                  exact absurd hrun (by simp)
                | ok bb =>
                  cases bb with
                  | true =>
                    have hpipe : installPipeline env version fs = (Except.ok true, fs4) := by
                      unfold installPipeline
                      rw [hdl]
                      simp [hbuild, hcs, hcr]
                    rw [hpipe] at hrun
                    exact absurd hrun (by simp)
                  | false =>
                    rcases hdel4 : delete_version version fs4 with ⟨r2, fs5⟩
                    cases r2 with
                    | error e =>
                      have hpipe : installPipeline env version fs = (Except.error e, fs5) := by
                        unfold installPipeline
                        rw [hdl]
                        simp [hbuild, hcs, hcr, hdel4]
                      rw [hpipe] at hrun
                      exact absurd hrun (by simp)
                    | ok u =>
                      cases u
                      have hpipe : installPipeline env version fs = (Except.ok false, fs5) := by
                        unfold installPipeline
                        rw [hdl]
                        simp [hbuild, hcs, hcr, hdel4]
                      rw [hpipe] at hrun
                      injection hrun with h1 h2
                      subst h2
                      exact publish_fail_rollback env version
                        (removeDirFS
                          (setDir (setDir fs { name := buildDirName version, bin := none })
                            { name := version, bin := some env.altinstallBin })
                          (buildDirName version)) fs4 fs5 hfd3 (by exact hnd) (by exact ha)
                        (by rw [hasDir_eq_false]; exact findDir_removeDirFS_self _ _)
                        hcr hdel4

/-- An environment whose configure step fails (and whose failing steps
create nothing). -/
def envConfigureFail : SysEnv :=
  { envAltinstallFail with configureOk := false, altinstallPartialBin := none }

/-- Witness for `install_rollback`: a configure failure from the empty state
returns failure and leaves no install root, alias or staging tree. -/
theorem install_rollback_w :
    install envConfigureFail ("3.9.1") { download := [], links := [] } =
      (Except.ok false, { download := [], links := [] }) ∧
    (hasDir { download := [], links := [] } ("3.9.1") = false ∧
      hasAliasOf ("3.9.1") { download := [], links := [] } = false ∧
      hasDir { download := [], links := [] } (buildDirName ("3.9.1")) = false) :=
  ⟨by decide,
   install_rollback envConfigureFail ("3.9.1") { download := [], links := [] }
     { download := [], links := [] } (by decide) (by decide) (by decide) (by decide) rfl
     (by decide)⟩
